import Mathlib

/-
Verification of the Pacemaker CTS audit engine (python/pacemaker/_cts/audits.py)
against its natural-language specification.

The Python source is shallowly embedded: every audit's decision logic becomes a
computable Lean function over an explicit environment record that stands for the
remote-command channel (`cm.rsh`), the cluster-manager callbacks and the mutable
per-session state.  Python `None` becomes `Option`, Python dictionaries become
functions updated pointwise, uncaught Python exceptions become `Except PyErr`,
and Python truthiness is made explicit at each use site.
-/

set_option autoImplicit false

namespace CTSAudits

/-- Uncaught Python exceptions that the audit code can raise.
`valueErrorInt` is the `ValueError` raised by `int()` on a malformed string,
`valueErrorDiskFull` is the `ValueError("Disk full on ...")` deliberately
raised by `DiskAudit`, `nameError` is the `NameError` from referencing an
unbound local in `DiskAudit`'s exception handler. -/
inductive PyErr where
  | keyError
  | indexError
  | valueErrorInt
  | valueErrorDiskFull
  | nameError
deriving DecidableEq, Repr

deriving instance DecidableEq for Except

/-- Remove leading and trailing whitespace from a character list. -/
def pyStripChars (l : List Char) : List Char :=
  ((l.dropWhile Char.isWhitespace).reverse.dropWhile Char.isWhitespace).reverse

/-- Python `str.strip()`: remove leading and trailing whitespace. -/
def pyStrip (s : String) : String := String.mk (pyStripChars s.data)

/-- Worker for `pySplitWs`: split a character list on runs of whitespace,
accumulating the current (reversed) token. -/
def splitWsChars (acc : List Char) : List Char → List (List Char)
  | [] => if acc = [] then [] else [acc.reverse]
  | c :: rest =>
    if c.isWhitespace then
      if acc = [] then splitWsChars [] rest
      else acc.reverse :: splitWsChars [] rest
    else splitWsChars (c :: acc) rest

/-- Python `str.split()` with no argument: split on runs of whitespace and
drop empty tokens. -/
def pySplitWs (s : String) : List String :=
  (splitWsChars [] s.data).map String.mk

/-- Worker for `pyInt`: parse an unsigned run of decimal digits. -/
def digitsToNat (acc : Nat) : List Char → Option Nat
  | [] => some acc
  | c :: rest =>
    if c.isDigit then digitsToNat (acc * 10 + (c.toNat - '0'.toNat)) rest
    else none

/-- Parse an optionally signed decimal integer from a character list
(no surrounding whitespace). -/
def pyIntChars : List Char → Option Int
  | [] => none
  | '-' :: rest =>
    if rest = [] then none
    else (digitsToNat 0 rest).map (fun n => -(n : Int))
  | '+' :: rest =>
    if rest = [] then none
    else (digitsToNat 0 rest).map (fun n => (n : Int))
  | l => (digitsToNat 0 l).map (fun n => (n : Int))

/-- Python `int(s)`: tolerate surrounding whitespace, fail (with
`ValueError`, here `none`) on anything that is not an optionally signed
run of decimal digits. -/
def pyInt (s : String) : Option Int :=
  pyIntChars (pyStripChars s.data)

/-- Python truthiness of an `int`. -/
def pyTruthyInt (n : Int) : Bool := n != 0

/-- Python truthiness of an `Optional[int]`: `None` and `0` are falsy. -/
def optIntTruthy : Option Int → Bool
  | none => false
  | some e => e != 0

/-- Pointwise update of a dictionary modelled as a function. -/
def upd {α : Type} (f : String → α) (k : String) (v : α) : String → α :=
  fun x => if x = k then v else f x

@[simp]
theorem upd_same {α : Type} (f : String → α) (k : String) (v : α) : upd f k v k = v := by
  simp [upd]

@[simp]
theorem upd_ne {α : Type} (f : String → α) (k x : String) (v : α) (h : x ≠ k) :
    upd f k v x = f x := by
  simp [upd, h]

/-- Does the second character list start with the first? -/
def charsLeading : List Char → List Char → Bool
  | [], _ => true
  | _ :: _, [] => false
  | a :: as, b :: bs => a == b && charsLeading as bs

/-- Does the needle occur anywhere in the haystack? -/
def charsContain (hay pat : List Char) : Bool :=
  if charsLeading pat hay then true
  else
    match hay with
    | [] => false
    | _ :: t => charsContain t pat

/-- Substring test: `re.search(pat, line)` for a pattern with no regex
metacharacters is a substring search. -/
def strContains (s pat : String) : Bool := charsContain s.data pat.data

/-! ## Resource and constraint model (`AuditResource`, `AuditConstraint`) -/

/-- One parsed `Resource` line of `crm_resource --list-cts` output
(`AuditResource.__init__`).  `needs_quorum` is kept as the raw string field,
exactly as in the source, where `fields[9]` is never converted to an int. -/
structure AuditResource where
  type : String
  id : String
  clone_id : String
  parent : Option String
  rprovider : String
  rclass : String
  rtype : String
  host : String
  needs_quorum : String
  flags : Int
  flags_s : String
deriving DecidableEq, Repr

instance : Inhabited AuditResource :=
  ⟨⟨"", "", "", none, "", "", "", "", "", 0, ""⟩⟩

/-- `AuditResource.__init__`: split the line on whitespace and take the
positional fields; `parent` is `None` when the token is `NA`; `flags` goes
through `int()` (malformed input would raise, modelled as `none`).  Lines with
too few fields would raise `IndexError`, also modelled as `none`. -/
def AuditResource.ofLine (line : String) : Option AuditResource :=
  let fields := pySplitWs line
  if 12 ≤ fields.length then
    match pyInt fields[10]! with
    | none => none
    | some fl =>
      some { type := fields[1]!, id := fields[2]!, clone_id := fields[3]!,
             parent := if fields[4]! = "NA" then none else some fields[4]!,
             rprovider := fields[5]!, rclass := fields[6]!, rtype := fields[7]!,
             host := fields[8]!, needs_quorum := fields[9]!,
             flags := fl, flags_s := fields[11]! }
  else none

/-- Property `AuditResource.unique`: `flags & 0x20` (an int, used for its
truthiness). -/
def AuditResource.unique (r : AuditResource) : Int := r.flags.land 0x20

/-- Property `AuditResource.orphan`: `flags & 0x01`. -/
def AuditResource.orphan (r : AuditResource) : Int := r.flags.land 0x01

/-- Property `AuditResource.managed`: `flags & 0x02`. -/
def AuditResource.managed (r : AuditResource) : Int := r.flags.land 0x02

/-! ## PrimitiveAudit -/

/-- Python `==` between a `str` and an `int` compares values of different
types and is always `False`; `PrimitiveAudit._audit_resource` evaluates
`resource.needs_quorum == 1` where `needs_quorum` is a string field. -/
def pyStrEqInt (_s : String) (_n : Int) : Bool := false

/-- Environment of one `PrimitiveAudit` run after `_setup`:
`resourceLocation` is `cm.resource_location` (the nodes a resource is active
on), `inactiveNodes` is `self._inactive_nodes`, `warnInactive` is
`env["warn-inactive"]`. -/
structure PrimEnv where
  resourceLocation : String → List String
  inactiveNodes : List String
  warnInactive : Bool

/-- `PrimitiveAudit._audit_resource`: returns the per-resource pass flag `rc`.
Branches that only log keep `rc` unchanged and are collapsed to their
`rc` value. -/
def auditResource (env : PrimEnv) (resource : AuditResource) (quorum : Bool) : Bool :=
  let active := env.resourceLocation resource.id
  if active.length = 1 then
    if quorum then true
    else if pyStrEqInt resource.needs_quorum 1 then false
    else true
  else if !pyTruthyInt resource.managed then true
  else if !pyTruthyInt resource.unique then true
  else if active.length > 1 then false
  else if pyTruthyInt resource.orphan then true
  else if env.inactiveNodes.isEmpty then false
  else true

/-- `PrimitiveAudit.__call__` body after `_setup`: audit every resource of
type `primitive`, and-ing the per-resource results. -/
def primitiveAuditCall (env : PrimEnv) (resources : List AuditResource)
    (quorum : Bool) : Bool :=
  resources.foldl
    (fun result r =>
      if r.type = "primitive" && !auditResource env r quorum then false else result)
    true

/-! ## GroupAudit -/

/-- Loop state of `GroupAudit.__call__`'s walk over one group's children:
the running `result`, the `first_match` flag and the expected
`group_location`. -/
structure GroupWalkState where
  result : Bool
  firstMatch : Bool
  groupLocation : Option String
deriving DecidableEq, Repr

/-- One iteration of the child loop in `GroupAudit.__call__` (lines 568-594):
fetch the child's active nodes, let the first child set the expected group
location, clear `first_match`, then fail on multiple locations, reset the
location on an inactive child, and compare an active child's node against the
expected location (`nodes[0] != group_location`, where comparing a `str`
with `None` yields `True`). -/
def groupChildStep (loc : String → List String) (st : GroupWalkState)
    (child : AuditResource) : GroupWalkState :=
  let nodes := loc child.id
  let gl := if st.firstMatch && nodes.length > 0 then some nodes.head! else st.groupLocation
  if nodes.length > 1 then
    { result := false, firstMatch := false, groupLocation := gl }
  else if nodes.isEmpty then
    { result := st.result, firstMatch := false, groupLocation := none }
  else if some nodes.head! != gl then
    { result := false, firstMatch := false, groupLocation := gl }
  else
    { result := st.result, firstMatch := false, groupLocation := gl }

/-- `GroupAudit.__call__` body after `_setup`: for every resource of type
`group`, walk all resources whose `parent` is the group id, in listing order,
threading the shared `result` flag. -/
def groupAuditCall (loc : String → List String) (resources : List AuditResource) : Bool :=
  resources.foldl
    (fun result group =>
      if group.type != "group" then result
      else
        (resources.foldl
          (fun st child =>
            if child.parent != some group.id then st
            else groupChildStep loc st child)
          { result := result, firstMatch := true, groupLocation := none }).result)
    true

/-! ## Orchestration (`audit_list` and the applicability predicates) -/

/-- The audit classes of the fixed catalog in `audit_list`. -/
inductive AuditKind where
  | diskAudit
  | fileAudit
  | logAudit
  | controllerStateAudit
  | partitionAudit
  | primitiveAudit
  | groupAudit
  | cloneAudit
  | colocationAudit
  | cibAudit
deriving DecidableEq, Repr

/-- Configuration consulted by the applicability predicates. -/
structure OrchEnv where
  logAuditDisabled : Bool

/-- The `is_applicable` method of each audit class.  `DiskAudit` and
`FileAudit` return `True`; `LogAudit` checks `env["LogAuditDisabled"]`;
`PrimitiveAudit` (inherited by `GroupAudit`, `CloneAudit` and
`ColocationAudit`), `ControllerStateAudit`, `CIBAudit` and `PartitionAudit`
all contain the commented-out historic name test and return `False`. -/
def isApplicable (env : OrchEnv) : AuditKind → Bool
  | .diskAudit => true
  | .fileAudit => true
  | .logAudit => !env.logAuditDisabled
  | .controllerStateAudit => false
  | .partitionAudit => false
  | .primitiveAudit => false
  | .groupAudit => false
  | .cloneAudit => false
  | .colocationAudit => false
  | .cibAudit => false

/-- The fixed, ordered audit catalog of `audit_list`. -/
def auditCatalog : List AuditKind :=
  [.diskAudit, .fileAudit, .logAudit, .controllerStateAudit, .partitionAudit,
   .primitiveAudit, .groupAudit, .cloneAudit, .colocationAudit, .cibAudit]

/-- `audit_list`: instantiate each catalog entry and keep those whose
`is_applicable()` is true, preserving catalog order. -/
def audit_list (env : OrchEnv) : List AuditKind :=
  auditCatalog.filter (isApplicable env)

/-! ## CIBAudit -/

/-- Environment of `CIBAudit._audit_cib_contents` for one partition:
`partition` is the space-separated host list, `queryRc` the exit status of
the `CibQuery` command on a node, `copyRc` the exit status of copying a
node's stored CIB file to a target node, `diffRc`/`diffLines` the exit
status and output lines of `crm_diff` run on the reference node against a
given other node's file. -/
structure CibEnv where
  partition : String
  queryRc : String → Int
  copyRc : String → String → Int
  diffRc : String → String → Int
  diffLines : String → String → List String

/-- Filename used by `_store_remote_cib`. -/
def cibFilename (node : String) : String := "/tmp/ctsaudit." ++ node ++ ".xml"

/-- `CIBAudit._store_remote_cib`: query the node's CIB (fail on nonzero exit
status), then copy the stored file to the target (the node itself when no
target is given); return the filename, or `None` on failure. -/
def storeRemoteCib (env : CibEnv) (node : String) (target : Option String) :
    Option String :=
  let tgt := match target with
    | none => node
    | some t => t
  if env.queryRc node != 0 then none
  else if env.copyRc node tgt != 0 then none
  else some (cibFilename node)

/-- One line of the `crm_diff` output scan: a line without the empty-diff
marker clears the pass flag. -/
def cibLineStep (p : Bool) (line : String) : Bool :=
  if !strContains line "<diff/>" then false else p

/-- One host of `_audit_cib_contents`'s loop, acting on
`(passed, node0, node0_xml)`.  A node whose CIB cannot be stored fails the
partition; the first node that produces a document becomes the reference;
every later producing node is diffed against the reference, failing on a
nonzero `crm_diff` exit status and on any output line without the
empty-diff marker. -/
def cibStep (env : CibEnv) (acc : Bool × Option String × Option String)
    (node : String) : Bool × Option String × Option String :=
  let passed := acc.1
  let node0 := acc.2.1
  let node0_xml := acc.2.2
  match storeRemoteCib env node node0 with
  | none => (false, node0, node0_xml)
  | some node_xml =>
    match node0 with
    | none => (passed, some node, some node_xml)
    | some n0 =>
      match node0_xml with
      | none => (false, node0, node0_xml)
      | some _ =>
        let rc := env.diffRc n0 node
        let lines := env.diffLines n0 node
        let passed1 := if rc != 0 then false else passed
        (lines.foldl cibLineStep passed1, node0, node0_xml)

/-- `CIBAudit._audit_cib_contents`: walk the partition hosts with
`cibStep`, starting from a passing state with no reference node. -/
def auditCibContents (env : CibEnv) : Bool :=
  ((pySplitWs env.partition).foldl (cibStep env) (true, none, none)).1

/-- Claim-side rendering of C5's pass condition, following the claim's words:
every node produces a configuration document, and for every non-reference
node the `crm_diff` output consists only of lines containing the empty-diff
marker.  The reference node is the first host of the partition. -/
def cibClaimRhs (env : CibEnv) : Bool :=
  match pySplitWs env.partition with
  | [] => true
  | h :: rest =>
    (storeRemoteCib env h none).isSome &&
    rest.all (fun n => (storeRemoteCib env n (some h)).isSome) &&
    rest.all (fun n => (env.diffLines h n).all (fun line => strContains line "<diff/>"))

/-- Amended pass condition for C5: like `cibClaimRhs` but additionally
requiring every `crm_diff` invocation to exit with status 0. -/
def cibClaimRhsAmended (env : CibEnv) : Bool :=
  match pySplitWs env.partition with
  | [] => true
  | h :: rest =>
    (storeRemoteCib env h none).isSome &&
    rest.all (fun n =>
      (storeRemoteCib env n (some h)).isSome &&
      (env.diffRc h n == 0) &&
      (env.diffLines h n).all (fun line => strContains line "<diff/>"))

/-! ## DiskAudit -/

/-- Environment of one `DiskAudit` run: the node list, the output lines of
the composed `df` command per node, and the result of
`should_continue(env)`. -/
structure DiskEnv where
  nodes : List String
  dfOut : String → List String
  shouldContinue : Bool

/-- The per-node df classification the claim talks about: the probe parsed
to two integers `(used_percent, remaining_mb)` with `remaining_mb < 10` or
`used_percent > 95`. -/
def critAt (env : DiskEnv) (n : String) : Bool :=
  match env.dfOut n with
  | [] => false
  | l :: _ =>
    match pySplitWs (pyStrip l) with
    | [u, m] =>
      match pyInt u, pyInt m with
      | some used, some remain => remain < 10 || used > 95
      | _, _ => false
    | _ => false

/-- Well-formedness of one node's df output: either no output (the audit
logs and continues) or a first line with exactly two whitespace-separated
tokens (so the tuple unpacking in the `try` block succeeds and binds
`used`/`remain`).  With a different arity the unpacking raises `ValueError`
and the handler's f-string can hit an unbound local. -/
def wfDf (env : DiskEnv) (n : String) : Bool :=
  match env.dfOut n with
  | [] => true
  | l :: _ =>
    match pySplitWs (pyStrip l) with
    | [_, _] => true
    | _ => false

/-- `DiskAudit.__call__`'s node loop.  `result` is the running pass flag;
`bound` records whether the locals `used`/`remain` have been bound by an
earlier successful unpacking (Python function locals persist across loop
iterations, so the `except` handler's f-string raises `NameError` only when
no earlier iteration bound them).  A CRIT reading fails the audit and, when
`should_continue` is false, raises `ValueError("Disk full...")`. -/
def diskLoop (env : DiskEnv) : List String → Bool → Bool → Except PyErr Bool
  | [], result, _bound => .ok result
  | n :: rest, result, bound =>
    match env.dfOut n with
    | [] => diskLoop env rest result bound
    | l :: _ =>
      match pySplitWs (pyStrip l) with
      | [used, remain] =>
        match pyInt used, pyInt remain with
        | some used_percent, some remaining_mb =>
          if remaining_mb < 10 || used_percent > 95 then
            if !env.shouldContinue then .error .valueErrorDiskFull
            else diskLoop env rest false true
          else
            diskLoop env rest result true
        | _, _ => diskLoop env rest result true
      | _ =>
        if bound then diskLoop env rest result bound
        else .error .nameError

/-- `DiskAudit.__call__`. -/
def diskAudit (env : DiskEnv) : Except PyErr Bool :=
  diskLoop env env.nodes true false

/-! ## FileAudit -/

/-- Environment of one `FileAudit` run: per-node `ls` output for the two
core-dump paths and the `/dev/shm` IPC path, and the expected node status
(`expected_status.get(node)`). -/
structure FileEnv where
  nodes : List String
  coresPacemaker : String → List String
  coresCorosync : String → List String
  shmOut : String → List String
  expectedStatus : String → Option String

/-- One `ls` output line of `_find_core_on_fs`: strip it, skip it when it
is already in the dedup list, otherwise report it and remember it. -/
def coreStep (acc : Bool × List String) (line : String) : Bool × List String :=
  let stripped := pyStrip line
  if stripped ∈ acc.2 then acc
  else (true, acc.2 ++ [stripped])

/-- `FileAudit._find_core_on_fs`: walk the `ls` output with `coreStep`.
Returns `(found, known)`. -/
def findCoreOnFs (known : List String) (lsout : List String) : Bool × List String :=
  lsout.foldl coreStep (false, known)

/-- One node of `FileAudit.__call__`: check both core paths, then, for a
node expected to be down, fail on any stale IPC file under `/dev/shm` (the
`ps` snapshot and the `rm -rf` are remote side effects outside the audit
result). -/
def fileAuditNode (env : FileEnv) (acc : Bool × List String) (node : String) :
    Bool × List String :=
  let r1 := findCoreOnFs acc.2 (env.coresPacemaker node)
  let result1 := if r1.1 then false else acc.1
  let r2 := findCoreOnFs r1.2 (env.coresCorosync node)
  let result2 := if r2.1 then false else result1
  if env.expectedStatus node = some "down" then
    (if env.shmOut node != [] then false else result2, r2.2)
  else
    (result2, r2.2)

/-- `FileAudit.__call__` with the session dedup list `known` carried in and
out. -/
def fileAuditCall (env : FileEnv) (known : List String) : Bool × List String :=
  env.nodes.foldl (fileAuditNode env) (true, known)

/-! ## LogAudit -/

/-- The log channel kinds of `pacemaker._cts.watcher.LogKind` used by
`LogAudit._test_logging`. -/
inductive LogKind where
  | localFile
  | journal
  | remoteFile
deriving DecidableEq, Repr

/-- Observable actions of one `_test_logging` run, in order: arming a
watcher for a channel (`_create_watcher`/`set_watch`), emitting the tagged
test message from a node (`rsh logger ...`), and checking a channel
(`look_for_all`). -/
inductive LogEvent where
  | arm (k : LogKind)
  | emit (node : String)
  | check (k : LogKind)
deriving DecidableEq, Repr

/-- Environment of one `_test_logging` run: the node list, whether systemd
is available, the sticky `env["log_kind"]` coming in, the generated uuid
suffix, and, per channel, the patterns `look_for_all` leaves unmatched. -/
structure LogEnv where
  nodes : List String
  haveSystemd : Bool
  logKind : Option LogKind
  suffix : String
  unmatched : LogKind → List String

/-- The `re.search("^([^.]+).*", node)` hostname shortening: the leading
run of non-dot characters, or the whole name when the regex does not match
(name empty or starting with a dot). -/
def simpleName (n : String) : String :=
  let lead := n.data.takeWhile (fun c => c != '.')
  if lead = [] then n else String.mk lead

/-- The per-node search patterns built by `_test_logging`. -/
def logPatterns (env : LogEnv) : List String :=
  env.nodes.map (fun n => simpleName n ++ ".*" ++ "Test message from" ++ " " ++ n ++ " " ++ env.suffix)

/-- The candidate channel list built when no preferred channel is known:
local file, then the journal when systemd is available, then the remote
file. -/
def logKinds (env : LogEnv) : List LogKind :=
  [LogKind.localFile] ++ (if env.haveSystemd then [LogKind.journal] else []) ++ [LogKind.remoteFile]

/-- The check loop of `_test_logging` over the armed channels, in order:
a channel with unmatched patterns is logged and the next is tried; the
first fully matched channel returns success and is stored as the sticky
preferred channel when none was known.  Returns
`(result, new log_kind, check events)`. -/
def logChecks (env : LogEnv) : List LogKind → Bool × Option LogKind × List LogEvent
  | [] => (false, env.logKind, [])
  | k :: rest =>
    if env.unmatched k != [] then
      let r := logChecks env rest
      (r.1, r.2.1, LogEvent.check k :: r.2.2)
    else
      (true, if env.logKind = none then some k else env.logKind, [LogEvent.check k])

/-- `LogAudit._test_logging`: build the patterns, arm a watcher for every
candidate channel (or only the known preferred one), emit the tagged test
message from every node, then check the channels in order.  The trace
records the order of arming, emission and checking. -/
def testLogging (env : LogEnv) : Bool × Option LogKind × List LogEvent :=
  let keys := match env.logKind with
    | none => logKinds env
    | some p => [p]
  let r := logChecks env keys
  (r.1, r.2.1, keys.map LogEvent.arm ++ env.nodes.map LogEvent.emit ++ r.2.2)

/-- The first candidate channel whose unmatched set is empty. -/
def firstMatchedKind (env : LogEnv) : Option LogKind :=
  (logKinds env).find? (fun k => env.unmatched k == [])

/-! ## PartitionAudit -/

/-- Environment of `PartitionAudit._audit_partition` for one partition:
the node list from `partition.split()`, the shared `expected_status`
dictionary coming in (a missing key raises `KeyError`), the output lines of
the per-node `StatusCmd`, `EpochCmd` and `QuorumCmd` queries, and the
cluster manager's `is_node_dc` test on a node's trimmed status string. -/
structure PartEnv where
  nodes : List String
  expected0 : String → Option String
  statusOut : String → List String
  epochOut : String → List String
  quorumOut : String → List String
  isNodeDC : String → Option String → Bool

/-- `PartitionAudit._trim_string` applied to an (already stripped) string
value: `None` for an empty string, drop the last character of a
multi-character string, keep a single character. -/
def trimString (s : String) : Option String :=
  if s.data = [] then none
  else if s.data.length > 1 then some (String.mk s.data.dropLast)
  else some s

/-- `PartitionAudit._trim2int`: trim, then convert a truthy (nonempty)
result with `int()`, which raises `ValueError` on a non-numeric string;
a falsy trim result yields `None`. -/
def trim2int (s : String) : Except PyErr (Option Int) :=
  match trimString s with
  | none => .ok none
  | some t =>
    match pyInt t with
    | some n => .ok (some n)
    | none => .error .valueErrorInt

/-- The running minimum update of the first loop:
`if lowest_epoch is None or epoch < lowest_epoch: lowest_epoch = epoch`. -/
def pyMinUpd (lowest : Option Int) (e : Int) : Option Int :=
  match lowest with
  | none => some e
  | some m => if e < m then some e else some m

/-- State threaded through `_audit_partition`'s first node loop: the
`expected_status` dictionary and the `_node_state`, `_node_epoch`,
`_node_quorum` maps (fresh per call) plus `lowest_epoch`. -/
structure PartState where
  expected : String → Option String
  nodeState : String → Option String
  nodeEpoch : String → Option Int
  nodeQuorum : String → Option String
  lowest : Option Int

/-- One iteration of the first loop of `_audit_partition` (lines 941-968):
promote an unexpected node to `up`, read the first output line of the
status, epoch and quorum queries (raising `IndexError` on empty output),
strip and trim them (the epoch through `_trim2int`, which can raise
`ValueError`), then either demote the node to `down` on a falsy epoch or
fold the epoch into `lowest_epoch`. -/
def partitionNode (env : PartEnv) (st : PartState) (n : String) :
    Except PyErr PartState :=
  match st.expected n with
  | none => .error .keyError
  | some exp0 =>
    let expected1 := if exp0 != "up" then upd st.expected n (some "up") else st.expected
    match env.statusOut n with
    | [] => .error .indexError
    | sRaw :: _ =>
      match env.epochOut n with
      | [] => .error .indexError
      | eRaw :: _ =>
        match env.quorumOut n with
        | [] => .error .indexError
        | qRaw :: _ =>
          match trim2int (pyStrip eRaw) with
          | .error e => .error e
          | .ok epochVal =>
            let ns := upd st.nodeState n (trimString (pyStrip sRaw))
            let ne := upd st.nodeEpoch n epochVal
            let nq := upd st.nodeQuorum n (trimString (pyStrip qRaw))
            if optIntTruthy epochVal then
              .ok { expected := expected1, nodeState := ns, nodeEpoch := ne,
                    nodeQuorum := nq,
                    lowest := pyMinUpd st.lowest (epochVal.getD 0) }
            else
              .ok { expected := upd expected1 n (some "down"), nodeState := ns,
                    nodeEpoch := ne, nodeQuorum := nq, lowest := st.lowest }

/-- The first loop of `_audit_partition` over the partition's nodes. -/
def partLoop1 (env : PartEnv) : List String → PartState → Except PyErr PartState
  | [], st => .ok st
  | n :: rest, st =>
    match partitionNode env st n with
    | .error e => .error e
    | .ok st1 => partLoop1 env rest st1

/-- The epoch check applied to one DC node in the second loop: equal to the
lowest epoch is fine, a falsy node epoch or falsy lowest epoch is ignored,
anything else fails (Python `==` on `Optional[int]` values, where
`None == None` is `True`). -/
def dcCheck (lowest : Option Int) (e : Option Int) : Bool :=
  if e == lowest then true
  else if !optIntTruthy e then true
  else if !optIntTruthy lowest then true
  else false

/-- The second loop of `_audit_partition` (lines 974-989): for every node
still expected `up`, test `is_node_dc` on its trimmed status, collect DC
nodes, and apply the epoch check to each DC found. -/
def partLoop2 (env : PartEnv) (st : PartState) :
    List String → Bool → List String → Except PyErr (Bool × List String)
  | [], passed, dcs => .ok (passed, dcs)
  | n :: rest, passed, dcs =>
    match st.expected n with
    | none => .error .keyError
    | some v =>
      if v != "up" then partLoop2 env st rest passed dcs
      else if env.isNodeDC n (st.nodeState n) then
        partLoop2 env st rest (passed && dcCheck st.lowest (st.nodeEpoch n)) (dcs ++ [n])
      else partLoop2 env st rest passed dcs

/-- Result of one `_audit_partition` call: the final pass flag, the pass
flag after the lowest-epoch guard but before the DC checks, the collected
DC list, the computed lowest epoch and the final per-node maps. -/
structure PartRes where
  passed : Bool
  passedMid : Bool
  dcFound : List String
  lowest : Option Int
  expectedAfter : String → Option String
  nodeState : String → Option String
  nodeEpoch : String → Option Int
  nodeQuorum : String → Option String

instance : Inhabited PartRes :=
  ⟨⟨true, true, [], none, fun _ => none, fun _ => none, fun _ => none, fun _ => none⟩⟩

/-- Initial first-loop state of `_audit_partition`: the incoming
`expected_status` dictionary and the freshly (re)initialized per-node
maps. -/
def partInit (env : PartEnv) : PartState :=
  { expected := env.expected0, nodeState := fun _ => none,
    nodeEpoch := fun _ => none, nodeQuorum := fun _ => none, lowest := none }

/-- `PartitionAudit._audit_partition`: run the first loop, fail when the
lowest epoch is falsy (`if not lowest_epoch`), run the DC loop, and finally
fail when more than one DC was found (zero DCs is only logged). -/
def auditPartition (env : PartEnv) : Except PyErr PartRes :=
  match partLoop1 env env.nodes (partInit env) with
  | .error e => .error e
  | .ok st =>
    let passedMid := optIntTruthy st.lowest
    match partLoop2 env st env.nodes passedMid [] with
    | .error e => .error e
    | .ok pd =>
      .ok { passed := if pd.2.length > 1 then false else pd.1,
            passedMid := passedMid, dcFound := pd.2, lowest := st.lowest,
            expectedAfter := st.expected, nodeState := st.nodeState,
            nodeEpoch := st.nodeEpoch, nodeQuorum := st.nodeQuorum }

/-- The epoch value a node's query parses to, as the first loop computes
it: first output line, stripped, through `_trim2int`. -/
def parsedEpochE (env : PartEnv) (n : String) : Except PyErr (Option Int) :=
  match env.epochOut n with
  | [] => .error .indexError
  | l :: _ => trim2int (pyStrip l)

/-- The parsed epoch with errors collapsed to `none` (only used under the
hypothesis that the audit returned without raising). -/
def okEpoch (env : PartEnv) (n : String) : Option Int :=
  match parsedEpochE env n with
  | .ok v => v
  | .error _ => none

/-- The trimmed status string of a node, as the first loop computes it. -/
def okState (env : PartEnv) (n : String) : Option String :=
  match env.statusOut n with
  | [] => none
  | s :: _ => trimString (pyStrip s)

/-- The epoch a node contributes to the minimum: its parsed epoch when that
is truthy (present and nonzero), nothing otherwise. -/
def epochProduced (env : PartEnv) (n : String) : Option Int :=
  match parsedEpochE env n with
  | .ok (some e) => if e != 0 then some e else none
  | _ => none

/-- The epochs produced by the partition's nodes, in node order. -/
def producedEpochs (env : PartEnv) : List Int :=
  env.nodes.filterMap (epochProduced env)

/-- Minimum of a list of integers, `none` on the empty list. -/
def listMinI : List Int → Option Int
  | [] => none
  | e :: rest =>
    match listMinI rest with
    | none => some e
    | some m => if e ≤ m then some e else some m

/-- Merge of two optional minima. -/
def omin : Option Int → Option Int → Option Int
  | none, b => b
  | some a, none => some a
  | some a, some b => some (min a b)

/-- The predicate deciding membership in `dc_found`, expressed directly over
the environment: the node kept `up` status through the first loop (its
epoch was truthy) and its trimmed status satisfies the DC test. -/
def dcPred (env : PartEnv) (n : String) : Bool :=
  (epochProduced env n).isSome && env.isNodeDC n (okState env n)

/-- The environment with one node's epoch query replaced by a single line
that strips to the empty string, i.e. a missing epoch. -/
def withEpochBlank (env : PartEnv) (n : String) : PartEnv :=
  { env with epochOut := upd env.epochOut n [""] }

/-! ## Concrete instances used by counterexamples and witnesses -/

/-- Three-node partition with raw epochs `5;`, `5;`, `7;` (the command
output carries a trailing character that `_trim_string` drops) and the DC
test satisfied exactly by `n1`, whose epoch is the minimum. -/
def envC1 : PartEnv :=
  { nodes := ["n1", "n2", "n3"]
    expected0 := fun _ => some "up"
    statusOut := fun n => if n = "n1" then ["S_IDLE;"] else ["S_NOT_DC;"]
    epochOut := fun n => if n = "n3" then ["7;"] else ["5;"]
    quorumOut := fun _ => ["1;"]
    isNodeDC := fun n _ => n == "n1" }

/-- Like `envC1` but the DC test is satisfied exactly by `n3`, whose epoch
`7` is above the minimum `5`. -/
def envC1b : PartEnv := { envC1 with isNodeDC := fun n _ => n == "n3" }

/-- The audit result on `envC1`. -/
def resC1 : PartRes :=
  match auditPartition envC1 with
  | .ok r => r
  | .error _ => default

/-- The audit result on `envC1b`. -/
def resC1b : PartRes :=
  match auditPartition envC1b with
  | .ok r => r
  | .error _ => default

/-- `envC1` with every node's epoch query answering a non-numeric string. -/
def envC4a : PartEnv := { envC1 with epochOut := fun _ => ["abc"] }

/-- `envC1` with every node's status query returning no output lines. -/
def envC4b : PartEnv := { envC1 with statusOut := fun _ => [] }

/-- `envC1` with node `n2`'s epoch query answering a line that strips to
the empty string (a missing epoch). -/
def envC4c : PartEnv := { envC1 with epochOut := fun n => if n = "n2" then [" "] else ["5;"] }

/-- The audit result on `envC4c`. -/
def resC4c : PartRes :=
  match auditPartition envC4c with
  | .ok r => r
  | .error _ => default

/-- `envC1` with node `n2`'s epoch query answering `00`, which trims to
`0` and parses to the integer `0`. -/
def envC10 : PartEnv := { envC1 with epochOut := fun n => if n = "n2" then ["00"] else ["5;"] }

/-- The audit result on `envC10`. -/
def resC10 : PartRes :=
  match auditPartition envC10 with
  | .ok r => r
  | .error _ => default

/-- The audit result on `envC10` with `n2`'s epoch blanked out. -/
def resC10blank : PartRes :=
  match auditPartition (withEpochBlank envC10 "n2") with
  | .ok r => r
  | .error _ => default

/-- `envC1` with every epoch query answering whitespace only: every node
is demoted and no lowest epoch is determined. -/
def envC10b : PartEnv := { envC1 with epochOut := fun _ => [" "] }

/-- The audit result on `envC10b`. -/
def resC10b : PartRes :=
  match auditPartition envC10b with
  | .ok r => r
  | .error _ => default

/-- A `crm_resource --list-cts` resource line: primitive `r1`, hosted on
`n1`, `needs_quorum` field `1`, flags `0x22` (managed and unique). -/
def lineC2 : String := "Resource: primitive r1 r1 NA heartbeat ocf Dummy n1 1 34 0x22"

/-- The parse of `lineC2`. -/
def resC2 : AuditResource :=
  { type := "primitive", id := "r1", clone_id := "r1", parent := none,
    rprovider := "heartbeat", rclass := "ocf", rtype := "Dummy", host := "n1",
    needs_quorum := "1", flags := 34, flags_s := "0x22" }

/-- A primitive-audit environment in which `r1` is active on exactly one
node and all cluster nodes are up. -/
def envC2 : PrimEnv :=
  { resourceLocation := fun _ => ["n1"], inactiveNodes := [], warnInactive := false }

/-- Group `g1` for the group-audit scenario. -/
def grpC3 : AuditResource :=
  { type := "group", id := "g1", clone_id := "g1", parent := none, rprovider := "NA",
    rclass := "ocf", rtype := "g", host := "n1", needs_quorum := "0", flags := 2,
    flags_s := "managed" }

/-- First child of `g1`, active on `n1`. -/
def childC3a : AuditResource :=
  { type := "primitive", id := "c0", clone_id := "c0", parent := some "g1",
    rprovider := "hb", rclass := "ocf", rtype := "d", host := "n1",
    needs_quorum := "0", flags := 2, flags_s := "managed" }

/-- Second child of `g1`, inactive. -/
def childC3b : AuditResource :=
  { type := "primitive", id := "c1", clone_id := "c1", parent := some "g1",
    rprovider := "hb", rclass := "ocf", rtype := "d", host := "n1",
    needs_quorum := "0", flags := 2, flags_s := "managed" }

/-- Third child of `g1`, active on `n1` again. -/
def childC3c : AuditResource :=
  { type := "primitive", id := "c2", clone_id := "c2", parent := some "g1",
    rprovider := "hb", rclass := "ocf", rtype := "d", host := "n1",
    needs_quorum := "0", flags := 2, flags_s := "managed" }

/-- The resource listing of the group-audit scenario. -/
def rsC3 : List AuditResource := [grpC3, childC3a, childC3b, childC3c]

/-- Active locations in the group-audit scenario: `c0` and `c2` run on
`n1`, `c1` is stopped. -/
def locC3 : String → List String := fun rid =>
  if rid = "c0" then ["n1"] else if rid = "c2" then ["n1"] else []

/-- Two-node partition in which both nodes produce a CIB document, the
diff output is exactly the empty-diff marker line, but `crm_diff` exits
with status 1. -/
def envC5 : CibEnv :=
  { partition := "n1 n2", queryRc := fun _ => 0, copyRc := fun _ _ => 0,
    diffRc := fun _ _ => 1, diffLines := fun _ _ => ["<diff/>"] }

/-- Disk environment: node `a` reports 96% used and 5 MB remaining (CRIT),
node `b` is healthy; the continue-on-error policy is on. -/
def envC6 : DiskEnv :=
  { nodes := ["a", "b"],
    dfOut := fun n => if n = "a" then ["96 5"] else ["50 2000"],
    shouldContinue := true }

/-- Same readings as `envC6` with the continue-on-error policy off. -/
def envC6b : DiskEnv := { envC6 with shouldContinue := false }

/-- Disk environment with a WARN-only reading (91% used, 50 MB remaining)
and the continue-on-error policy off. -/
def envC6c : DiskEnv :=
  { nodes := ["a"], dfOut := fun _ => ["91 50"], shouldContinue := false }

/-- Log environment: one node, systemd available, no preferred channel,
and only the journal channel (channel 2 of 3) matching all patterns. -/
def envC7 : LogEnv :=
  { nodes := ["n1"], haveSystemd := true, logKind := none, suffix := "u",
    unmatched := fun k => match k with | .journal => [] | _ => ["p"] }

/-- `envC7` on a later run of the same session, after the journal was
stored as the preferred channel. -/
def envC7b : LogEnv := { envC7 with logKind := some LogKind.journal }

/-- File-audit environment: one node with a core file line and no stale
IPC findings. -/
def envC9 : FileEnv :=
  { nodes := ["a"], coresPacemaker := fun _ => ["core.123  x "],
    coresCorosync := fun _ => [], shmOut := fun _ => [],
    expectedStatus := fun _ => some "up" }

/-! # Theorems -/

theorem list_all_congr {α : Type} {l : List α} {f g : α → Bool}
    (h : ∀ x ∈ l, f x = g x) : l.all f = l.all g := by
  induction l with
  | nil => rfl
  | cons a t ih =>
    simp only [List.all_cons]
    rw [h a (List.mem_cons_self a t), ih (fun x hx => h x (List.mem_cons_of_mem a hx))]

/-- Claim C8: under current naming rules the applicability predicates of
the Primitive audit (and its subclasses Group, Clone, Colocation), the
ControllerState, CIB and Partition audits are identically false, so
`audit_list` never includes them; `audit_list` returns exactly the catalog
entries whose predicate is true, preserving catalog order: the disk and
file audits, plus the log audit unless it is disabled. -/
theorem claim_C8 (env : OrchEnv) :
    isApplicable env .primitiveAudit = false ∧
    isApplicable env .groupAudit = false ∧
    isApplicable env .cloneAudit = false ∧
    isApplicable env .colocationAudit = false ∧
    isApplicable env .controllerStateAudit = false ∧
    isApplicable env .cibAudit = false ∧
    isApplicable env .partitionAudit = false ∧
    audit_list env =
      (if env.logAuditDisabled then [.diskAudit, .fileAudit]
       else [.diskAudit, .fileAudit, .logAudit]) ∧
    (∀ k : AuditKind, k ∈ audit_list env ↔ k ∈ auditCatalog ∧ isApplicable env k = true) := by
  obtain ⟨b⟩ := env
  cases b <;>
    refine ⟨rfl, rfl, rfl, rfl, rfl, rfl, rfl, by decide, ?_⟩ <;>
    intro k <;> cases k <;> decide

/-- Witness for claim C8 at both configurations: with the log audit
enabled the runnable list is disk, file, log; with it disabled the list
is disk, file -- never any of the placement, controller-state, partition
or CIB audits. -/
theorem claim_C8_witness :
    audit_list { logAuditDisabled := false } = [.diskAudit, .fileAudit, .logAudit] ∧
    audit_list { logAuditDisabled := true } = [.diskAudit, .fileAudit] := by
  have h1 := (claim_C8 { logAuditDisabled := false }).2.2.2.2.2.2.2.1
  have h2 := (claim_C8 { logAuditDisabled := true }).2.2.2.2.2.2.2.1
  exact ⟨h1.trans (by decide), h2.trans (by decide)⟩

/-- Claim C2 (code bug): `needs_quorum` is the raw string field
`fields[9]` of the resource line, and `_audit_resource` compares it with
the integer literal 1 -- in Python a `str` never equals an `int`, so the
`active without quorum` failure branch can never fire.  Concretely: a
managed, unique resource whose `needs_quorum` field is `1`, active on
exactly one node while the cluster has no quorum, is reported as a pass. -/
theorem claim_C2_bug_eval :
    AuditResource.ofLine lineC2 = some resC2 ∧
    resC2.needs_quorum = "1" ∧
    pyTruthyInt resC2.managed = true ∧
    pyTruthyInt resC2.unique = true ∧
    (envC2.resourceLocation resC2.id).length = 1 ∧
    auditResource envC2 resC2 false = true ∧
    primitiveAuditCall envC2 [resC2] false = true := by
  refine ⟨by decide, rfl, by decide, by decide, rfl, by decide, by decide⟩

/-- Claim C3 counterexample: in group `g1` with children `c0` (active on
`n1`), `c1` (inactive) and `c2` (active on `n1`), the child `c2` is active
on the same node as its nearest active predecessor `c0`, yet the audit
fails, because the inactive `c1` reset the expected location to `None` and
an active child never matches a `None` location. -/
theorem claim_C3_counterexample :
    locC3 childC3a.id = ["n1"] ∧ locC3 childC3b.id = [] ∧ locC3 childC3c.id = ["n1"] ∧
    childC3a.parent = some grpC3.id ∧ childC3b.parent = some grpC3.id ∧
    childC3c.parent = some grpC3.id ∧
    groupAuditCall locC3 rsC3 = false := by
  refine ⟨rfl, rfl, rfl, rfl, rfl, rfl, by decide⟩

/-- Claim C3 as amended: walking a group's children in listing order, a
child active on more than one node fails the audit; an inactive child
resets the expected group location to none (and is itself no failure); a
child active on exactly one node keeps the running result exactly when it
is the first child or the expected location equals its node -- the
expected location is only ever set by the group's first child and never
updated later, so in particular any child that is active after an
inactive sibling fails the audit regardless of where it runs. -/
theorem claim_C3_amended (loc : String → List String) (st : GroupWalkState)
    (child : AuditResource) :
    ((loc child.id).length > 1 → (groupChildStep loc st child).result = false) ∧
    (loc child.id = [] →
      (groupChildStep loc st child).groupLocation = none ∧
      (groupChildStep loc st child).result = st.result) ∧
    (∀ n, loc child.id = [n] →
      (groupChildStep loc st child).result
        = (st.result && (st.firstMatch || st.groupLocation == some n))) ∧
    (∀ n, st.firstMatch = false → st.groupLocation = none → loc child.id = [n] →
      (groupChildStep loc st child).result = false) := by
  obtain ⟨res, fm, gl⟩ := st
  refine ⟨?_, ?_, ?_, ?_⟩
  · intro h
    simp only [groupChildStep]
    rw [if_pos h]
  · intro h
    simp [groupChildStep, h]
  · intro n h
    cases fm
    · rcases gl with _ | g
      · simp [groupChildStep, h]
      · by_cases hg : g = n
        · subst hg
          simp [groupChildStep, h]
        · have hng : ¬ n = g := fun hn => hg hn.symm
          simp [groupChildStep, h, hng, hg]
    · simp [groupChildStep, h]
  · intro n hfm hgl h
    subst hfm
    subst hgl
    simp [groupChildStep, h]

/-- Witness for claim C3's amended statement at concrete inputs: after an
inactive sibling (first-match flag cleared, expected location none), the
child `c2`, though active on `n1` like its nearest active predecessor,
makes the walk fail. -/
theorem claim_C3_witness :
    (groupChildStep locC3
      { result := true, firstMatch := false, groupLocation := none } childC3c).result
      = false :=
  (claim_C3_amended locC3
    { result := true, firstMatch := false, groupLocation := none } childC3c).2.2.2
    "n1" rfl rfl rfl

theorem cib_lines_foldl (lines : List String) :
    ∀ p : Bool, lines.foldl cibLineStep p
      = (p && lines.all (fun line => strContains line "<diff/>")) := by
  induction lines with
  | nil => intro p; simp
  | cons l t ih =>
    intro p
    simp only [List.foldl_cons, List.all_cons, cibLineStep]
    cases hc : strContains l "<diff/>" <;> simp [hc, ih]

theorem cib_foldl_false (env : CibEnv) : ∀ (hosts : List String) (n0 x0 : Option String),
    (hosts.foldl (cibStep env) (false, n0, x0)).1 = false := by
  intro hosts
  induction hosts with
  | nil => intro n0 x0; rfl
  | cons h t ih =>
    intro n0 x0
    simp only [List.foldl_cons, cibStep]
    cases hs : storeRemoteCib env h n0
    · simp only [hs]
      exact ih n0 x0
    · rename_i xml
      simp only [hs]
      rcases n0 with _ | n00
      · exact ih (some h) (some xml)
      · rcases x0 with _ | xh
        · exact ih (some n00) none
        · simp only []
          rw [cib_lines_foldl]
          have : (if (env.diffRc n00 h != 0) = true then false else false) = false := by
            split <;> rfl
          rw [this]
          simp only [Bool.false_and]
          exact ih (some n00) (some xh)

theorem cib_foldl_ref (env : CibEnv) (h : String) (xh : String) :
    ∀ (rest : List String) (passed : Bool),
    (rest.foldl (cibStep env) (passed, some h, some xh)).1 =
      (passed && rest.all (fun n =>
        (storeRemoteCib env n (some h)).isSome &&
        (env.diffRc h n == 0) &&
        (env.diffLines h n).all (fun line => strContains line "<diff/>"))) := by
  intro rest
  induction rest with
  | nil => intro p; simp
  | cons n t ih =>
    intro p
    simp only [List.foldl_cons, cibStep, List.all_cons]
    cases hs : storeRemoteCib env n (some h)
    · simp only [hs, Option.isSome_none, Bool.false_and, Bool.and_false]
      rw [cib_foldl_false]
    · rename_i xml
      simp only [hs, Option.isSome_some, Bool.true_and]
      rw [ih, cib_lines_foldl]
      have hp1 : (if (env.diffRc h n != 0) = true then false else p)
          = (p && (env.diffRc h n == 0)) := by
        cases hrc : env.diffRc h n == 0 <;> simp [bne, hrc]
      rw [hp1]
      cases p <;> cases hrc : env.diffRc h n == 0 <;>
        simp [hrc, Bool.and_assoc]

/-- Claim C5 counterexample: in a two-node partition where both nodes
produce their configuration document and the diff output is exactly the
empty-diff marker line, but `crm_diff` exits with status 1, the claim's
pass condition holds while the audit fails. -/
theorem claim_C5_counterexample :
    cibClaimRhs envC5 = true ∧ auditCibContents envC5 = false := by
  constructor <;> decide

/-- Claim C5 as amended: the CIB audit passes a partition exactly when
every node produces a configuration document and, for every non-reference
node, the `crm_diff` invocation against the reference node's document
exits with status 0 and its output consists only of lines containing the
empty-diff marker. -/
theorem claim_C5_amended (env : CibEnv) :
    auditCibContents env = cibClaimRhsAmended env := by
  unfold auditCibContents cibClaimRhsAmended
  cases hp : pySplitWs env.partition with
  | nil => rfl
  | cons h rest =>
    simp only [List.foldl_cons, cibStep]
    cases hs : storeRemoteCib env h none
    · simp only [hs, Option.isSome_none, Bool.false_and]
      rw [cib_foldl_false]
    · rename_i xml
      simp only [hs, Option.isSome_some, Bool.true_and]
      rw [cib_foldl_ref]
      rfl

theorem disk_loop_cont (env : DiskEnv) (hc : env.shouldContinue = true) :
    ∀ (l : List String) (result bound : Bool), l.all (wfDf env) = true →
    diskLoop env l result bound = .ok (result && !(l.any (critAt env))) := by
  intro l
  induction l with
  | nil => intro result bound _; simp [diskLoop]
  | cons n t ih =>
    intro result bound hwf
    rw [List.all_cons, Bool.and_eq_true] at hwf
    obtain ⟨hn, ht⟩ := hwf
    cases hd : env.dfOut n with
    | nil =>
      have hcr : critAt env n = false := by simp [critAt, hd]
      simp [diskLoop, hd, hcr, ih result bound ht]
    | cons l0 rest0 =>
      cases hsp : pySplitWs (pyStrip l0) with
      | nil => simp [wfDf, hd, hsp] at hn
      | cons u r1 =>
        cases r1 with
        | nil => simp [wfDf, hd, hsp] at hn
        | cons m r2 =>
          cases r2 with
          | cons x r3 => simp [wfDf, hd, hsp] at hn
          | nil =>
            cases hpu : pyInt u with
            | none =>
              have hcr : critAt env n = false := by simp [critAt, hd, hsp, hpu]
              simp [diskLoop, hd, hsp, hpu, hcr, ih result true ht]
            | some used =>
              cases hpm : pyInt m with
              | none =>
                have hcr : critAt env n = false := by simp [critAt, hd, hsp, hpu, hpm]
                simp [diskLoop, hd, hsp, hpu, hpm, hcr, ih result true ht]
              | some remain =>
                have hcr : critAt env n = (decide (remain < 10) || decide (used > 95)) := by
                  simp [critAt, hd, hsp, hpu, hpm]
                cases hcond : (decide (remain < 10) || decide (used > 95)) with
                | false =>
                  rw [hcond] at hcr
                  simp [diskLoop, hd, hsp, hpu, hpm, hcr, hcond, ih result true ht]
                | true =>
                  rw [hcond] at hcr
                  simp [diskLoop, hd, hsp, hpu, hpm, hcr, hcond, hc, ih false true ht]

theorem disk_loop_stop (env : DiskEnv) (hc : env.shouldContinue = false) :
    ∀ (l : List String) (result bound : Bool), l.all (wfDf env) = true →
    diskLoop env l result bound =
      (if l.any (critAt env) then .error .valueErrorDiskFull else .ok result) := by
  intro l
  induction l with
  | nil => intro result bound _; simp [diskLoop]
  | cons n t ih =>
    intro result bound hwf
    rw [List.all_cons, Bool.and_eq_true] at hwf
    obtain ⟨hn, ht⟩ := hwf
    cases hd : env.dfOut n with
    | nil =>
      have hcr : critAt env n = false := by simp [critAt, hd]
      simp [diskLoop, hd, hcr, ih result bound ht]
    | cons l0 rest0 =>
      cases hsp : pySplitWs (pyStrip l0) with
      | nil => simp [wfDf, hd, hsp] at hn
      | cons u r1 =>
        cases r1 with
        | nil => simp [wfDf, hd, hsp] at hn
        | cons m r2 =>
          cases r2 with
          | cons x r3 => simp [wfDf, hd, hsp] at hn
          | nil =>
            cases hpu : pyInt u with
            | none =>
              have hcr : critAt env n = false := by simp [critAt, hd, hsp, hpu]
              simp [diskLoop, hd, hsp, hpu, hcr, ih result true ht]
            | some used =>
              cases hpm : pyInt m with
              | none =>
                have hcr : critAt env n = false := by simp [critAt, hd, hsp, hpu, hpm]
                simp [diskLoop, hd, hsp, hpu, hpm, hcr, ih result true ht]
              | some remain =>
                have hcr : critAt env n = (decide (remain < 10) || decide (used > 95)) := by
                  simp [critAt, hd, hsp, hpu, hpm]
                cases hcond : (decide (remain < 10) || decide (used > 95)) with
                | false =>
                  rw [hcond] at hcr
                  simp [diskLoop, hd, hsp, hpu, hpm, hcr, hcond, ih result true ht]
                | true =>
                  rw [hcond] at hcr
                  simp [diskLoop, hd, hsp, hpu, hpm, hcr, hcond, hc]

/-- Claim C6: on well-formed probe output, the disk audit with the
continue-on-error policy on returns false exactly when some node's parsed
probe is CRIT (remaining MB below 10 or used percent above 95) -- WARN
readings pass; with the policy off, a CRIT reading raises the fatal
`ValueError` that aborts the harness run instead of returning false, and
without a CRIT reading the audit returns true. -/
theorem claim_C6 (env : DiskEnv) (hwf : env.nodes.all (wfDf env) = true) :
    (env.shouldContinue = true →
      diskAudit env = .ok (!env.nodes.any (critAt env))) ∧
    (env.shouldContinue = false → env.nodes.any (critAt env) = true →
      diskAudit env = .error .valueErrorDiskFull) ∧
    (env.shouldContinue = false → env.nodes.any (critAt env) = false →
      diskAudit env = .ok true) := by
  refine ⟨fun hc => ?_, fun hc hcr => ?_, fun hc hcr => ?_⟩
  · rw [diskAudit, disk_loop_cont env hc _ _ _ hwf]
    simp
  · rw [diskAudit, disk_loop_stop env hc _ _ _ hwf, if_pos hcr]
  · rw [diskAudit, disk_loop_stop env hc _ _ _ hwf, if_neg]
    simp [hcr]

/-- Witness for claim C6 at concrete probes: node `a` at 96% used / 5 MB
remaining is CRIT and fails the audit; the same readings with the
continue-on-error policy off raise the fatal disk-full error; a WARN-only
reading (91% / 50 MB) passes even with the policy off. -/
theorem claim_C6_witness :
    diskAudit envC6 = .ok false ∧
    diskAudit envC6b = .error .valueErrorDiskFull ∧
    diskAudit envC6c = .ok true := by
  have h1 := (claim_C6 envC6 (by decide)).1 rfl
  have h2 := (claim_C6 envC6b (by decide)).2.1 rfl (by decide)
  have h3 := (claim_C6 envC6c (by decide)).2.2 rfl (by decide)
  have e1 : (!envC6.nodes.any (critAt envC6)) = false := by decide
  rw [e1] at h1
  exact ⟨h1, h2, h3⟩

theorem list_any_eq_find_isSome {α : Type} (p : α → Bool) :
    ∀ l : List α, l.any p = (l.find? p).isSome := by
  intro l
  induction l with
  | nil => rfl
  | cons a t ih =>
    cases hp : p a <;> simp [List.any_cons, List.find?, hp, ih]

theorem logChecks_char (env : LogEnv) : ∀ keys : List LogKind,
    (logChecks env keys).1 = keys.any (fun k => env.unmatched k == []) ∧
    (logChecks env keys).2.2 =
      (keys.takeWhile (fun k => env.unmatched k != [])).map LogEvent.check ++
        (match keys.find? (fun k => env.unmatched k == []) with
         | some k => [LogEvent.check k]
         | none => []) ∧
    (logChecks env keys).2.1 =
      (match keys.find? (fun k => env.unmatched k == []) with
       | some k => if env.logKind = none then some k else env.logKind
       | none => env.logKind) := by
  intro keys
  induction keys with
  | nil => exact ⟨rfl, rfl, rfl⟩
  | cons k t ih =>
    obtain ⟨ih1, ih2, ih3⟩ := ih
    cases hb : env.unmatched k == []
    · have hbn : (env.unmatched k != []) = true := by rw [bne, hb]; rfl
      have e : logChecks env (k :: t) =
          ((logChecks env t).1, (logChecks env t).2.1,
           LogEvent.check k :: (logChecks env t).2.2) := by
        rw [logChecks, hbn, if_pos rfl]
      have hfind : List.find? (fun k => env.unmatched k == []) (k :: t)
          = List.find? (fun k => env.unmatched k == []) t :=
        List.find?_cons_of_neg t (by rw [hb]; exact Bool.false_ne_true)
      refine ⟨?_, ?_, ?_⟩
      · rw [e, ih1, List.any_cons, hb, Bool.false_or]
      · rw [e]
        show LogEvent.check k :: (logChecks env t).2.2 = _
        rw [ih2, List.takeWhile_cons, hbn, if_pos rfl, List.map_cons, List.cons_append,
            hfind]
      · rw [e]
        show (logChecks env t).2.1 = _
        rw [ih3, hfind]
    · have hbn : (env.unmatched k != []) = false := by rw [bne, hb]; rfl
      have e : logChecks env (k :: t) =
          (true, if env.logKind = none then some k else env.logKind,
           [LogEvent.check k]) := by
        rw [logChecks, hbn, if_neg Bool.false_ne_true]
      have hfind : List.find? (fun k => env.unmatched k == []) (k :: t) = some k :=
        List.find?_cons_of_pos t hb
      refine ⟨?_, ?_, ?_⟩
      · rw [e, List.any_cons, hb, Bool.true_or]
      · rw [e]
        show [LogEvent.check k] = _
        rw [List.takeWhile_cons, hbn, if_neg Bool.false_ne_true, List.map_nil,
            List.nil_append, hfind]
      · rw [e]
        show (if env.logKind = none then some k else env.logKind) = _
        rw [hfind]

/-- Claim C7: when no preferred log channel is known, `_test_logging` arms
a watcher for every candidate channel before any node emits the tagged
test message, then checks the channels sequentially in fixed priority
order; the run passes exactly when some channel matches all per-node
patterns, the first such channel is the one stored as the sticky preferred
channel, and on a later run with a stored preferred channel only that
channel is armed. -/
theorem claim_C7 (env : LogEnv) :
    (env.logKind = none →
      (testLogging env).2.2 =
        (logKinds env).map LogEvent.arm ++ env.nodes.map LogEvent.emit ++
          (((logKinds env).takeWhile (fun k => env.unmatched k != [])).map LogEvent.check ++
            (match firstMatchedKind env with
             | some k => [LogEvent.check k]
             | none => [])) ∧
      (testLogging env).1 = (firstMatchedKind env).isSome ∧
      (testLogging env).2.1 = firstMatchedKind env) ∧
    (∀ k, env.logKind = some k →
      (testLogging env).2.2
        = [LogEvent.arm k] ++ env.nodes.map LogEvent.emit ++ [LogEvent.check k] ∧
      (testLogging env).2.1 = some k ∧
      (testLogging env).1 = (env.unmatched k == [])) := by
  constructor
  · intro h
    have hc := logChecks_char env (logKinds env)
    simp only [testLogging, firstMatchedKind, h]
    refine ⟨?_, ?_, ?_⟩
    · rw [hc.2.1]
    · rw [hc.1, list_any_eq_find_isSome]
    · rw [hc.2.2]
      cases hf : List.find? (fun k => env.unmatched k == []) (logKinds env) <;>
        simp [h]
  · intro k h
    simp only [testLogging, h]
    cases hbn : env.unmatched k != []
    · have hb : (env.unmatched k == []) = true := by
        cases he : env.unmatched k == [] <;> rw [bne, he] at hbn <;> simp_all
      refine ⟨?_, ?_, ?_⟩ <;> simp [logChecks, hbn, h, hb]
    · have hb : (env.unmatched k == []) = false := by
        cases he : env.unmatched k == [] <;> rw [bne, he] at hbn <;> simp_all
      refine ⟨?_, ?_, ?_⟩ <;> simp [logChecks, hbn, h, hb]

/-- Witness for claim C7 at a concrete session: with no preferred channel,
three candidate channels armed before the emission and only the journal
(channel 2) matching, the audit passes and stores the journal as the
sticky preferred channel; the follow-up run arms only the journal. -/
theorem claim_C7_witness :
    (testLogging envC7).1 = true ∧
    (testLogging envC7).2.1 = some LogKind.journal ∧
    (testLogging envC7).2.2 =
      [LogEvent.arm LogKind.localFile, LogEvent.arm LogKind.journal,
       LogEvent.arm LogKind.remoteFile, LogEvent.emit "n1",
       LogEvent.check LogKind.localFile, LogEvent.check LogKind.journal] ∧
    (testLogging envC7b).2.2 =
      [LogEvent.arm LogKind.journal, LogEvent.emit "n1",
       LogEvent.check LogKind.journal] := by
  have h1 := (claim_C7 envC7).1 rfl
  have h2 := (claim_C7 envC7b).2 LogKind.journal rfl
  refine ⟨?_, ?_, ?_, ?_⟩
  · rw [h1.2.1]; decide
  · rw [h1.2.2]; decide
  · rw [h1.1]; decide
  · rw [h2.1]; decide

theorem core_foldl_mono : ∀ (ls : List String) (acc : Bool × List String) (x : String),
    x ∈ acc.2 → x ∈ (ls.foldl coreStep acc).2 := by
  intro ls
  induction ls with
  | nil => intro acc x hx; exact hx
  | cons l t ih =>
    intro acc x hx
    rw [List.foldl_cons]
    by_cases hm : pyStrip l ∈ acc.2
    · rw [coreStep, if_pos hm]
      exact ih acc x hx
    · rw [coreStep, if_neg hm]
      exact ih _ x (List.mem_append_left _ hx)

theorem core_foldl_mem : ∀ (ls : List String) (acc : Bool × List String) (l : String),
    l ∈ ls → pyStrip l ∈ (ls.foldl coreStep acc).2 := by
  intro ls
  induction ls with
  | nil => intro acc l h; exact absurd h (List.not_mem_nil l)
  | cons a t ih =>
    intro acc l h
    rw [List.foldl_cons]
    rcases List.mem_cons.mp h with h | h
    · subst h
      by_cases hm : pyStrip l ∈ acc.2
      · rw [coreStep, if_pos hm]
        exact core_foldl_mono t acc _ hm
      · rw [coreStep, if_neg hm]
        exact core_foldl_mono t _ _ (List.mem_append_right _ (by simp))
    · exact ih _ l h

theorem core_foldl_stable : ∀ (ls : List String) (acc : Bool × List String),
    (∀ l ∈ ls, pyStrip l ∈ acc.2) → ls.foldl coreStep acc = acc := by
  intro ls
  induction ls with
  | nil => intro acc _; rfl
  | cons a t ih =>
    intro acc h
    rw [List.foldl_cons, coreStep, if_pos (h a (List.mem_cons_self a t))]
    exact ih acc (fun l hl => h l (List.mem_cons_of_mem a hl))

theorem file_node_snd (env : FileEnv) (acc : Bool × List String) (n : String) :
    (fileAuditNode env acc n).2 =
      (findCoreOnFs (findCoreOnFs acc.2 (env.coresPacemaker n)).2 (env.coresCorosync n)).2 := by
  rw [fileAuditNode]
  split <;> rfl

theorem file_node_mono (env : FileEnv) (acc : Bool × List String) (n : String)
    (x : String) (hx : x ∈ acc.2) : x ∈ (fileAuditNode env acc n).2 := by
  rw [file_node_snd]
  exact core_foldl_mono _ _ _ (core_foldl_mono _ (false, acc.2) _ hx)

theorem file_fold_mono (env : FileEnv) : ∀ (ns : List String) (acc : Bool × List String)
    (x : String), x ∈ acc.2 → x ∈ (ns.foldl (fileAuditNode env) acc).2 := by
  intro ns
  induction ns with
  | nil => intro acc x hx; exact hx
  | cons a t ih =>
    intro acc x hx
    rw [List.foldl_cons]
    exact ih _ x (file_node_mono env acc a x hx)

theorem file_fold_coremem (env : FileEnv) : ∀ (ns : List String) (acc : Bool × List String)
    (n : String) (l : String), n ∈ ns →
    (l ∈ env.coresPacemaker n ∨ l ∈ env.coresCorosync n) →
    pyStrip l ∈ (ns.foldl (fileAuditNode env) acc).2 := by
  intro ns
  induction ns with
  | nil => intro acc n l h _; exact absurd h (List.not_mem_nil n)
  | cons a t ih =>
    intro acc n l h hl
    rw [List.foldl_cons]
    rcases List.mem_cons.mp h with h | h
    · subst h
      apply file_fold_mono env t
      rw [file_node_snd]
      rcases hl with hl | hl
      · exact core_foldl_mono _ (false, _) _ (core_foldl_mem _ _ l hl)
      · exact core_foldl_mem _ _ l hl
    · exact ih _ n l h hl

theorem file_node_stable (env : FileEnv) (acc : Bool × List String) (n : String)
    (h1 : ∀ l ∈ env.coresPacemaker n, pyStrip l ∈ acc.2)
    (h2 : ∀ l ∈ env.coresCorosync n, pyStrip l ∈ acc.2)
    (h3 : env.expectedStatus n = some "down" → env.shmOut n = []) :
    fileAuditNode env acc n = acc := by
  have e1 : findCoreOnFs acc.2 (env.coresPacemaker n) = (false, acc.2) :=
    core_foldl_stable _ (false, acc.2) h1
  rw [fileAuditNode, e1]
  have e2 : findCoreOnFs acc.2 (env.coresCorosync n) = (false, acc.2) :=
    core_foldl_stable _ (false, acc.2) h2
  simp only [e2]
  by_cases hd : env.expectedStatus n = some "down"
  · rw [if_pos hd, h3 hd]
    simp
  · rw [if_neg hd]
    simp

theorem file_fold_stable (env : FileEnv) (k1 : List String) :
    ∀ ns : List String,
    (∀ n ∈ ns, (∀ l ∈ env.coresPacemaker n, pyStrip l ∈ k1) ∧
               (∀ l ∈ env.coresCorosync n, pyStrip l ∈ k1) ∧
               (env.expectedStatus n = some "down" → env.shmOut n = [])) →
    ∀ b : Bool, ns.foldl (fileAuditNode env) (b, k1) = (b, k1) := by
  intro ns
  induction ns with
  | nil => intro _ b; rfl
  | cons a t ih =>
    intro h b
    have ha := h a (List.mem_cons_self a t)
    rw [List.foldl_cons, file_node_stable env (b, k1) a ha.1 ha.2.1 ha.2.2]
    exact ih (fun n hn => h n (List.mem_cons_of_mem a hn)) b

/-- Claim C9: rerunning the file audit on an unchanged node set is
idempotent in its reporting: the first run absorbs every core-file line
into the dedup list, so a second run over the same remote output adds
nothing to the list and, when no node expected down has stale IPC files
(the only other failure source), returns true. -/
theorem claim_C9 (env : FileEnv) (known : List String)
    (hipc : ∀ n, n ∈ env.nodes → env.expectedStatus n = some "down" → env.shmOut n = []) :
    fileAuditCall env (fileAuditCall env known).2 = (true, (fileAuditCall env known).2) := by
  rw [fileAuditCall, fileAuditCall]
  refine file_fold_stable env _ env.nodes (fun n hn => ⟨?_, ?_, hipc n hn⟩) true
  · intro l hl
    exact file_fold_coremem env env.nodes (true, known) n l hn (Or.inl hl)
  · intro l hl
    exact file_fold_coremem env env.nodes (true, known) n l hn (Or.inr hl)

/-- Witness for claim C9 at a concrete node set: the first run reports a
core file and fails; the second run over the same output reports nothing
new and returns true with the dedup list unchanged. -/
theorem claim_C9_witness :
    (fileAuditCall envC9 []).1 = false ∧
    fileAuditCall envC9 (fileAuditCall envC9 []).2 = (true, (fileAuditCall envC9 []).2) := by
  refine ⟨by decide, claim_C9 envC9 [] ?_⟩
  intro n hn hd
  have : envC9.expectedStatus n = some "up" := rfl
  rw [this] at hd
  exact absurd hd (by decide)

theorem pyMinUpd_eq_omin (a : Option Int) (e : Int) : pyMinUpd a e = omin a (some e) := by
  cases a with
  | none => rfl
  | some m =>
    simp only [pyMinUpd, omin]
    rcases lt_or_le e m with hlt | hle
    · rw [if_pos hlt, min_eq_right hlt.le]
    · rw [if_neg (not_lt.mpr hle), min_eq_left hle]

theorem omin_assoc (a b c : Option Int) : omin (omin a b) c = omin a (omin b c) := by
  cases a <;> cases b <;> cases c <;> simp [omin, min_assoc]

theorem listMinI_cons (e : Int) (l : List Int) :
    listMinI (e :: l) = omin (some e) (listMinI l) := by
  cases h : listMinI l with
  | none => simp [listMinI, h, omin]
  | some m =>
    simp only [listMinI, h, omin]
    rcases le_or_lt e m with hle | hlt
    · rw [if_pos hle, min_eq_left hle]
    · rw [if_neg (not_le.mpr hlt), min_eq_right hlt.le]

theorem listMinI_mem : ∀ (l : List Int) (m : Int), listMinI l = some m → m ∈ l := by
  intro l
  induction l with
  | nil => intro m h; exact absurd h (by simp [listMinI])
  | cons e t ih =>
    intro m h
    rw [listMinI_cons] at h
    cases ht : listMinI t with
    | none =>
      rw [ht] at h
      simp only [omin] at h
      cases h
      exact List.mem_cons_self e t
    | some mt =>
      rw [ht] at h
      simp only [omin, Option.some.injEq] at h
      rcases le_or_lt e mt with hle | hlt
      · rw [min_eq_left hle] at h
        subst h
        exact List.mem_cons_self e t
      · rw [min_eq_right hlt.le] at h
        subst h
        exact List.mem_cons_of_mem e (ih mt ht)

theorem epochProduced_ne_zero (env : PartEnv) (n : String) (e : Int)
    (h : epochProduced env n = some e) : e ≠ 0 := by
  unfold epochProduced at h
  cases hp : parsedEpochE env n with
  | error err => rw [hp] at h; exact absurd h (by simp)
  | ok v =>
    rw [hp] at h
    cases v with
    | none => exact absurd h (by simp)
    | some x =>
      simp only [] at h
      by_cases hx : x = 0
      · rw [hx] at h; exact absurd h (by simp)
      · have : (x != 0) = true := by simp [hx]
        rw [this, if_pos rfl] at h
        cases h
        exact hx

theorem epochProduced_okEpoch (env : PartEnv) (n : String) (e : Int)
    (h : epochProduced env n = some e) : okEpoch env n = some e := by
  unfold epochProduced at h
  unfold okEpoch
  cases hp : parsedEpochE env n with
  | error err => rw [hp] at h; exact absurd h (by simp)
  | ok v =>
    rw [hp] at h
    cases v with
    | none => exact absurd h (by simp)
    | some x =>
      simp only [] at h
      by_cases hx : x = 0
      · rw [hx] at h; exact absurd h (by simp)
      · have : (x != 0) = true := by simp [hx]
        rw [this, if_pos rfl] at h
        cases h
        rfl

theorem partitionNode_char (env : PartEnv) (st : PartState) (n : String) (st1 : PartState)
    (h : partitionNode env st n = .ok st1) :
    (∀ m, st1.expected m =
        if m = n then some (if (epochProduced env n).isSome then "up" else "down")
        else st.expected m) ∧
    (∀ m, st1.nodeEpoch m = if m = n then okEpoch env n else st.nodeEpoch m) ∧
    (∀ m, st1.nodeState m = if m = n then okState env n else st.nodeState m) ∧
    st1.lowest = (match epochProduced env n with
                  | some e => pyMinUpd st.lowest e
                  | none => st.lowest) := by
  simp only [partitionNode] at h
  cases hexp : st.expected n with
  | none => simp [hexp] at h
  | some exp0 =>
    cases hst : env.statusOut n with
    | nil => simp [hexp, hst] at h
    | cons sRaw srest =>
      cases hep : env.epochOut n with
      | nil => simp [hexp, hst, hep] at h
      | cons eRaw erest =>
        cases hq : env.quorumOut n with
        | nil => simp [hexp, hst, hep, hq] at h
        | cons qRaw qrest =>
          cases ht2 : trim2int (pyStrip eRaw) with
          | error err => simp [hexp, hst, hep, hq, ht2] at h
          | ok epochVal =>
            have hpe : parsedEpochE env n = .ok epochVal := by
              simp [parsedEpochE, hep, ht2]
            have hok : okEpoch env n = epochVal := by simp [okEpoch, hpe]
            have hos : okState env n = trimString (pyStrip sRaw) := by
              simp [okState, hst]
            have hexp1 : (if (exp0 != "up") = true
                then upd st.expected n (some "up") else st.expected) n = some "up" := by
              by_cases hx : (exp0 != "up") = true
              · rw [if_pos hx, upd_same]
              · rw [if_neg hx, hexp]
                have : exp0 = "up" := by
                  cases hxe : exp0 == "up"
                  · exact absurd (by rw [bne, hxe]; rfl) hx
                  · exact beq_iff_eq.mp hxe
                rw [this]
            have hexp1ne : ∀ m, m ≠ n →
                (if (exp0 != "up") = true
                 then upd st.expected n (some "up") else st.expected) m = st.expected m := by
              intro m hm
              by_cases hx : (exp0 != "up") = true
              · rw [if_pos hx, upd_ne _ _ _ _ hm]
              · rw [if_neg hx]
            cases hev : epochVal with
            | none =>
              have hprod : epochProduced env n = none := by
                simp [epochProduced, hpe, hev]
              simp only [hexp, hst, hep, hq, ht2, hev] at h
              have htru : optIntTruthy none = false := rfl
              rw [htru, if_neg Bool.false_ne_true, Except.ok.injEq] at h
              subst h
              refine ⟨?_, ?_, ?_, ?_⟩
              · intro m
                by_cases hm : m = n
                · subst hm
                  simp [upd_same, hprod]
                · by_cases hx : exp0 = "up" <;> simp [upd_ne _ _ _ _ hm, hm, hx]
              · intro m
                by_cases hm : m = n
                · subst hm
                  simp [upd_same, hok, hev]
                · simp [upd_ne _ _ _ _ hm, hm]
              · intro m
                by_cases hm : m = n
                · subst hm
                  simp [upd_same, hos]
                · simp [upd_ne _ _ _ _ hm, hm]
              · simp [hprod]
            | some e =>
              by_cases hez : e = 0
              · have hprod : epochProduced env n = none := by
                  simp [epochProduced, hpe, hev, hez]
                subst hez
                simp only [hexp, hst, hep, hq, ht2, hev] at h
                have htru : optIntTruthy (some 0) = false := rfl
                rw [htru, if_neg Bool.false_ne_true, Except.ok.injEq] at h
                subst h
                refine ⟨?_, ?_, ?_, ?_⟩
                · intro m
                  by_cases hm : m = n
                  · subst hm
                    simp [upd_same, hprod]
                  · by_cases hx : exp0 = "up" <;> simp [upd_ne _ _ _ _ hm, hm, hx]
                · intro m
                  by_cases hm : m = n
                  · subst hm
                    simp [upd_same, hok, hev]
                  · simp [upd_ne _ _ _ _ hm, hm]
                · intro m
                  by_cases hm : m = n
                  · subst hm
                    simp [upd_same, hos]
                  · simp [upd_ne _ _ _ _ hm, hm]
                · simp [hprod]
              · have hprod : epochProduced env n = some e := by
                  simp [epochProduced, hpe, hev, hez]
                simp only [hexp, hst, hep, hq, ht2, hev] at h
                have htru : optIntTruthy (some e) = true := by simp [optIntTruthy, hez]
                rw [htru, if_pos rfl, Except.ok.injEq] at h
                subst h
                refine ⟨?_, ?_, ?_, ?_⟩
                · intro m
                  by_cases hm : m = n
                  · subst hm
                    simp only [if_pos rfl, hprod, Option.isSome_some, ite_true]
                    exact hexp1
                  · by_cases hx : exp0 = "up" <;> simp [upd_ne _ _ _ _ hm, hm, hx]
                · intro m
                  by_cases hm : m = n
                  · subst hm
                    simp [upd_same, hok, hev]
                  · simp [upd_ne _ _ _ _ hm, hm]
                · intro m
                  by_cases hm : m = n
                  · subst hm
                    simp [upd_same, hos]
                  · simp [upd_ne _ _ _ _ hm, hm]
                · simp [hprod]

theorem omin_none_right (a : Option Int) : omin a none = a := by
  cases a <;> rfl

theorem listMinI_isSome {l : List Int} (hne : l ≠ []) : ∃ m, listMinI l = some m := by
  cases l with
  | nil => exact absurd rfl hne
  | cons e t =>
    rw [listMinI_cons]
    cases listMinI t with
    | none => exact ⟨e, rfl⟩
    | some m => exact ⟨min e m, rfl⟩

theorem partLoop1_char (env : PartEnv) : ∀ (l : List String) (st st' : PartState),
    partLoop1 env l st = .ok st' →
    (∀ m, st'.expected m =
        if m ∈ l then some (if (epochProduced env m).isSome then "up" else "down")
        else st.expected m) ∧
    (∀ m, st'.nodeEpoch m = if m ∈ l then okEpoch env m else st.nodeEpoch m) ∧
    (∀ m, st'.nodeState m = if m ∈ l then okState env m else st.nodeState m) ∧
    st'.lowest = omin st.lowest (listMinI (l.filterMap (epochProduced env))) := by
  intro l
  induction l with
  | nil =>
    intro st st' h
    simp only [partLoop1] at h
    rw [Except.ok.injEq] at h
    subst h
    refine ⟨?_, ?_, ?_, ?_⟩
    · intro m; simp
    · intro m; simp
    · intro m; simp
    · simp [listMinI, omin_none_right]
  | cons n t ih =>
    intro st st' h
    simp only [partLoop1] at h
    cases hstep : partitionNode env st n with
    | error e => simp [hstep] at h
    | ok st1 =>
      simp only [hstep] at h
      obtain ⟨he, hne, hns, hlo⟩ := partitionNode_char env st n st1 hstep
      obtain ⟨ihe, ihne, ihns, ihlo⟩ := ih st1 st' h
      refine ⟨?_, ?_, ?_, ?_⟩
      · intro m
        rw [ihe m]
        by_cases hmt : m ∈ t
        · rw [if_pos hmt, if_pos (List.mem_cons_of_mem n hmt)]
        · rw [if_neg hmt, he m]
          by_cases hmn : m = n
          · subst hmn
            rw [if_pos rfl, if_pos (List.mem_cons_self m t)]
          · rw [if_neg hmn, if_neg (by simp [hmn, hmt])]
      · intro m
        rw [ihne m]
        by_cases hmt : m ∈ t
        · rw [if_pos hmt, if_pos (List.mem_cons_of_mem n hmt)]
        · rw [if_neg hmt, hne m]
          by_cases hmn : m = n
          · subst hmn
            rw [if_pos rfl, if_pos (List.mem_cons_self m t)]
          · rw [if_neg hmn, if_neg (by simp [hmn, hmt])]
      · intro m
        rw [ihns m]
        by_cases hmt : m ∈ t
        · rw [if_pos hmt, if_pos (List.mem_cons_of_mem n hmt)]
        · rw [if_neg hmt, hns m]
          by_cases hmn : m = n
          · subst hmn
            rw [if_pos rfl, if_pos (List.mem_cons_self m t)]
          · rw [if_neg hmn, if_neg (by simp [hmn, hmt])]
      · rw [ihlo, hlo]
        cases hfn : epochProduced env n with
        | none =>
          rw [List.filterMap_cons]
          simp only [hfn]
        | some e =>
          rw [List.filterMap_cons]
          simp only [hfn]
          rw [pyMinUpd_eq_omin, listMinI_cons, omin_assoc]

theorem partLoop2_char (env : PartEnv) (st : PartState) :
    ∀ (l : List String) (passed : Bool) (dcs : List String) (p' : Bool) (dcs' : List String),
    partLoop2 env st l passed dcs = .ok (p', dcs') →
    dcs' = dcs ++ l.filter
        (fun n => (st.expected n == some "up") && env.isNodeDC n (st.nodeState n)) ∧
    p' = (passed &&
      (l.filter (fun n => (st.expected n == some "up") && env.isNodeDC n (st.nodeState n))).all
        (fun n => dcCheck st.lowest (st.nodeEpoch n))) := by
  intro l
  induction l with
  | nil =>
    intro passed dcs p' dcs' h
    simp only [partLoop2] at h
    rw [Except.ok.injEq] at h
    cases h
    exact ⟨by simp, by simp⟩
  | cons n t ih =>
    intro passed dcs p' dcs' h
    simp only [partLoop2] at h
    cases hexp : st.expected n with
    | none => simp [hexp] at h
    | some v =>
      simp only [hexp] at h
      by_cases hv : (v != "up") = true
      · rw [if_pos hv] at h
        obtain ⟨ih1, ih2⟩ := ih passed dcs p' dcs' h
        have hvne : (v == "up") = false := by
          cases hvb : v == "up"
          · rfl
          · rw [bne, hvb] at hv
            exact absurd hv (by simp)
        have hpred : ((some v == some "up") && env.isNodeDC n (st.nodeState n)) = false := by
          have : (some v == some "up") = (v == "up") := rfl
          rw [this, hvne, Bool.false_and]
        rw [List.filter_cons]
        rw [hexp, hpred]
        simp only [Bool.false_eq_true, if_neg, ite_false]
        exact ⟨ih1, ih2⟩
      · rw [if_neg hv] at h
        have hveq : v = "up" := by
          cases hvb : v == "up"
          · exact absurd (by rw [bne, hvb]; rfl) hv
          · exact beq_iff_eq.mp hvb
        cases hdc : env.isNodeDC n (st.nodeState n)
        · rw [hdc, if_neg Bool.false_ne_true] at h
          obtain ⟨ih1, ih2⟩ := ih passed dcs p' dcs' h
          have hpred : ((some v == some "up") && env.isNodeDC n (st.nodeState n)) = false := by
            rw [hdc, Bool.and_false]
          rw [List.filter_cons, hexp, hpred]
          simp only [Bool.false_eq_true, if_neg, ite_false]
          exact ⟨ih1, ih2⟩
        · rw [hdc, if_pos rfl] at h
          obtain ⟨ih1, ih2⟩ := ih _ _ p' dcs' h
          have hpred : ((some v == some "up") && env.isNodeDC n (st.nodeState n)) = true := by
            have : (some v == some "up") = (v == "up") := rfl
            rw [this, hveq, hdc]
            rfl
          rw [List.filter_cons, hexp, hpred]
          simp only [ite_true, if_pos]
          constructor
          · rw [ih1, List.append_assoc, List.singleton_append]
          · rw [ih2, List.all_cons, Bool.and_assoc]

theorem auditPartition_ok (env : PartEnv) (r : PartRes)
    (h : auditPartition env = .ok r) :
    ∃ st p dcs,
      partLoop1 env env.nodes (partInit env) = .ok st ∧
      partLoop2 env st env.nodes (optIntTruthy st.lowest) [] = .ok (p, dcs) ∧
      r = { passed := if dcs.length > 1 then false else p,
            passedMid := optIntTruthy st.lowest, dcFound := dcs, lowest := st.lowest,
            expectedAfter := st.expected, nodeState := st.nodeState,
            nodeEpoch := st.nodeEpoch, nodeQuorum := st.nodeQuorum } := by
  unfold auditPartition at h
  cases h1 : partLoop1 env env.nodes (partInit env) with
  | error e => simp [h1] at h
  | ok st =>
    simp only [h1] at h
    cases h2 : partLoop2 env st env.nodes (optIntTruthy st.lowest) [] with
    | error e => simp [h2] at h
    | ok pd =>
      simp only [h2] at h
      rw [Except.ok.injEq] at h
      exact ⟨st, pd.1, pd.2, rfl, h2, h.symm⟩

theorem audit_fields (env : PartEnv) (r : PartRes) (h : auditPartition env = .ok r) :
    (∀ m, r.expectedAfter m =
        if m ∈ env.nodes then some (if (epochProduced env m).isSome then "up" else "down")
        else env.expected0 m) ∧
    (∀ m, r.nodeEpoch m = if m ∈ env.nodes then okEpoch env m else none) ∧
    (∀ m, r.nodeState m = if m ∈ env.nodes then okState env m else none) ∧
    r.lowest = listMinI (producedEpochs env) ∧
    r.passedMid = optIntTruthy r.lowest ∧
    r.dcFound = env.nodes.filter (dcPred env) ∧
    r.passed = (if r.dcFound.length > 1 then false
                else r.passedMid && r.dcFound.all (fun n => dcCheck r.lowest (r.nodeEpoch n))) := by
  obtain ⟨st, p, dcs, h1, h2, hr⟩ := auditPartition_ok env r h
  obtain ⟨he, hne, hns, hlo⟩ := partLoop1_char env env.nodes (partInit env) st h1
  obtain ⟨hd, hp⟩ := partLoop2_char env st env.nodes (optIntTruthy st.lowest) [] p dcs h2
  have hlow : st.lowest = listMinI (producedEpochs env) := by
    rw [hlo]
    show omin none _ = _
    rfl
  have hpredeq : ∀ m ∈ env.nodes,
      ((st.expected m == some "up") && env.isNodeDC m (st.nodeState m)) = dcPred env m := by
    intro m hm
    rw [he m, if_pos hm, hns m, if_pos hm]
    unfold dcPred
    cases hps : (epochProduced env m).isSome <;> simp [hps]
  have hdcs : dcs = env.nodes.filter (dcPred env) := by
    rw [hd, List.nil_append]
    exact List.filter_congr hpredeq
  subst hr
  refine ⟨?_, ?_, ?_, ?_, rfl, hdcs, ?_⟩
  · intro m
    show st.expected m = _
    rw [he m]
    by_cases hm : m ∈ env.nodes
    · rw [if_pos hm, if_pos hm]
    · rw [if_neg hm, if_neg hm]
      rfl
  · intro m
    show st.nodeEpoch m = _
    rw [hne m]
    by_cases hm : m ∈ env.nodes
    · rw [if_pos hm, if_pos hm]
    · rw [if_neg hm, if_neg hm]
      rfl
  · intro m
    show st.nodeState m = _
    rw [hns m]
    by_cases hm : m ∈ env.nodes
    · rw [if_pos hm, if_pos hm]
    · rw [if_neg hm, if_neg hm]
      rfl
  · exact hlow
  · show (if dcs.length > 1 then false else p) = _
    rw [hp, hdcs]
    rw [List.filter_congr hpredeq]

/-- Claim C1: in a partition audit that returns without raising, more than
one DC among the nodes still expected up fails the audit; with exactly one
DC the audit fails precisely when that DC's parsed epoch differs from the
computed lowest epoch, which is the minimum of the epochs the partition's
nodes produced; zero DCs leaves the pass flag exactly as the lowest-epoch
guard left it, so it does not by itself fail the audit. -/
theorem claim_C1 (env : PartEnv) (r : PartRes) (h : auditPartition env = .ok r) :
    (r.dcFound.length > 1 → r.passed = false) ∧
    (∀ n, r.dcFound = [n] → (r.passed = false ↔ r.nodeEpoch n ≠ r.lowest)) ∧
    r.lowest = listMinI (producedEpochs env) ∧
    (r.dcFound = [] → r.passed = r.passedMid) := by
  obtain ⟨hexp, hne, hns, hlow, hmid, hdc, hpass⟩ := audit_fields env r h
  refine ⟨?_, ?_, hlow, ?_⟩
  · intro hlen
    rw [hpass, if_pos hlen]
  · intro n hn
    have hfil : env.nodes.filter (dcPred env) = [n] := hdc.symm.trans hn
    have hnmem : n ∈ env.nodes.filter (dcPred env) := by
      rw [hfil]
      exact List.mem_cons_self n []
    obtain ⟨hnode, hpred⟩ := List.mem_filter.mp hnmem
    unfold dcPred at hpred
    rw [Bool.and_eq_true] at hpred
    have hps : (epochProduced env n).isSome = true := hpred.1
    obtain ⟨e, hpe⟩ := Option.isSome_iff_exists.mp hps
    have hez : e ≠ 0 := epochProduced_ne_zero env n e hpe
    have hoke : okEpoch env n = some e := epochProduced_okEpoch env n e hpe
    have hmem2 : e ∈ producedEpochs env := List.mem_filterMap.mpr ⟨n, hnode, hpe⟩
    obtain ⟨mv, hmv⟩ := listMinI_isSome (List.ne_nil_of_mem hmem2)
    have hmvmem : mv ∈ producedEpochs env := listMinI_mem _ mv hmv
    obtain ⟨n2, hn2, hpe2⟩ := List.mem_filterMap.mp hmvmem
    have hmvz : mv ≠ 0 := epochProduced_ne_zero env n2 mv hpe2
    have hrl : r.lowest = some mv := by rw [hlow, hmv]
    have hmidt : r.passedMid = true := by
      rw [hmid, hrl]
      simp [optIntTruthy, hmvz]
    have hnev : r.nodeEpoch n = some e := by rw [hne n, if_pos hnode, hoke]
    have hpeq : r.passed = dcCheck r.lowest (r.nodeEpoch n) := by
      rw [hpass, hn, hmidt]
      simp
    rw [hpeq, hnev, hrl]
    by_cases heq : e = mv <;> simp [dcCheck, optIntTruthy, hez, hmvz, heq]
  · intro hdc0
    rw [hpass, hdc0]
    simp

/-- Witness for claim C1 at the spec's example: epochs 5, 5, 7 with the
single DC at epoch 5 pass the audit, and the same epochs with the single
DC at epoch 7 fail it. -/
theorem claim_C1_witness :
    auditPartition envC1 = .ok resC1 ∧ resC1.dcFound = ["n1"] ∧ resC1.passed = true ∧
    auditPartition envC1b = .ok resC1b ∧ resC1b.dcFound = ["n3"] ∧ resC1b.passed = false := by
  have hok : auditPartition envC1 = .ok resC1 := rfl
  have hokb : auditPartition envC1b = .ok resC1b := rfl
  have hdc : resC1.dcFound = ["n1"] := by decide
  have hdcb : resC1b.dcFound = ["n3"] := by decide
  have h1 := (claim_C1 envC1 resC1 hok).2.1 "n1" hdc
  have h2 := (claim_C1 envC1b resC1b hokb).2.1 "n3" hdcb
  have e1 : resC1.nodeEpoch "n1" = resC1.lowest := by decide
  have e2 : resC1b.nodeEpoch "n3" ≠ resC1b.lowest := by decide
  refine ⟨hok, hdc, ?_, hokb, hdcb, h2.mpr e2⟩
  cases hp : resC1.passed
  · exact absurd e1 (h1.mp hp)
  · rfl

/-- Claim C4 counterexample: the partition audit does abort on expected
failure conditions: a node whose epoch query answers the non-numeric
string `abc` makes `_trim2int`'s `int()` raise `ValueError`, and a node
whose status query returns no output lines makes `out[0]` raise
`IndexError`; neither degrades to a logged warning. -/
theorem claim_C4_counterexample :
    auditPartition envC4a = .error .valueErrorInt ∧
    auditPartition envC4b = .error .indexError := ⟨rfl, rfl⟩

/-- Claim C4 as amended: only an epoch value that is empty after
stripping is treated as absent -- the node is demoted to `down` and the
audit continues; but a status/epoch/quorum query with no output lines at
all raises `IndexError`, and an epoch whose trimmed value is a nonempty
non-numeric string raises `ValueError`, aborting the audit instead of
degrading to a warning. -/
theorem claim_C4_amended :
    (∀ (env : PartEnv) (r : PartRes) (n : String), auditPartition env = .ok r →
      n ∈ env.nodes → parsedEpochE env n = .ok none →
      r.expectedAfter n = some "down") ∧
    (∀ (env : PartEnv) (n : String) (rest : List String) (v : String),
      env.nodes = n :: rest → env.expected0 n = some v → env.statusOut n = [] →
      auditPartition env = .error .indexError) ∧
    (∀ (env : PartEnv) (n : String) (rest : List String) (v : String)
       (s e q : String) (ss es qs : List String),
      env.nodes = n :: rest → env.expected0 n = some v →
      env.statusOut n = s :: ss → env.epochOut n = e :: es → env.quorumOut n = q :: qs →
      trim2int (pyStrip e) = .error .valueErrorInt →
      auditPartition env = .error .valueErrorInt) := by
  refine ⟨?_, ?_, ?_⟩
  · intro env r n h hn hp0
    obtain ⟨hexp, _, _, _, _, _, _⟩ := audit_fields env r h
    have hprod : epochProduced env n = none := by
      unfold epochProduced
      rw [hp0]
    rw [hexp n, if_pos hn, hprod]
    simp
  · intro env n rest v hnodes hexp hst
    have hpn : partitionNode env (partInit env) n = .error .indexError := by
      simp [partitionNode, partInit, hexp, hst]
    unfold auditPartition
    rw [hnodes]
    simp [partLoop1, hpn]
  · intro env n rest v s e q ss es qs hnodes hexp hst hep hq ht2
    have hpn : partitionNode env (partInit env) n = .error .valueErrorInt := by
      simp [partitionNode, partInit, hexp, hst, hep, hq, ht2]
    unfold auditPartition
    rw [hnodes]
    simp [partLoop1, hpn]

/-- Witness for claim C4's amended statement at concrete inputs: a
whitespace-only epoch demotes node `n2` to `down` while the audit
completes; an empty status output aborts with `IndexError`; a non-numeric
epoch aborts with `ValueError`. -/
theorem claim_C4_witness :
    resC4c.expectedAfter "n2" = some "down" ∧
    auditPartition envC4b = .error .indexError ∧
    auditPartition envC4a = .error .valueErrorInt := by
  refine ⟨claim_C4_amended.1 envC4c resC4c "n2" rfl (by decide) (by decide),
          claim_C4_amended.2.1 envC4b "n1" ["n2", "n3"] "up" rfl rfl rfl,
          claim_C4_amended.2.2 envC4a "n1" ["n2", "n3"] "up" "S_IDLE;" "abc" "1;"
            [] [] [] rfl rfl rfl rfl rfl (by decide)⟩

/-- Claim C10: a node whose epoch output parses to the integer 0 is
treated exactly like a node with a missing epoch: it is demoted to `down`
and the audit result (pass flag, lowest epoch, DC list, final expected
statuses) is the same as with the epoch blanked out; and whenever the
lowest-epoch slot ends up falsy -- none, or the integer 0 that the
`if not lowest_epoch` guard equally catches -- the audit logs the
lowest-epoch failure and fails the partition. -/
theorem claim_C10 :
    (∀ (env : PartEnv) (r : PartRes) (n : String), auditPartition env = .ok r →
      n ∈ env.nodes → parsedEpochE env n = .ok (some 0) →
      r.expectedAfter n = some "down" ∧
      ∀ r' : PartRes, auditPartition (withEpochBlank env n) = .ok r' →
        r.passed = r'.passed ∧ r.lowest = r'.lowest ∧ r.dcFound = r'.dcFound ∧
        ∀ m, r.expectedAfter m = r'.expectedAfter m) ∧
    (∀ (env : PartEnv) (r : PartRes), auditPartition env = .ok r →
      optIntTruthy r.lowest = false → r.passed = false) := by
  constructor
  · intro env r n h hn hp0
    obtain ⟨hexp, hne, hns, hlow, hmid, hdc, hpass⟩ := audit_fields env r h
    have hprod : epochProduced env n = none := by
      unfold epochProduced
      rw [hp0]
      simp
    refine ⟨?_, ?_⟩
    · rw [hexp n, if_pos hn, hprod]
      simp
    · intro r' h'
      obtain ⟨hexp', hne', hns', hlow', hmid', hdc', hpass'⟩ :=
        audit_fields (withEpochBlank env n) r' h'
      have hblank : parsedEpochE (withEpochBlank env n) n = .ok none := by
        have hv : (withEpochBlank env n).epochOut n = [""] := by
          simp [withEpochBlank, upd_same]
        simp only [parsedEpochE, hv]
        rfl
      have hprodeq : ∀ m, epochProduced (withEpochBlank env n) m = epochProduced env m := by
        intro m
        by_cases hm : m = n
        · subst hm
          unfold epochProduced
          rw [hblank, hp0]
          simp
        · have hv : (withEpochBlank env n).epochOut m = env.epochOut m := by
            simp [withEpochBlank, upd_ne _ _ _ _ hm]
          unfold epochProduced parsedEpochE
          rw [hv]
      have hokeq : ∀ m, m ≠ n → okEpoch (withEpochBlank env n) m = okEpoch env m := by
        intro m hm
        have hv : (withEpochBlank env n).epochOut m = env.epochOut m := by
          simp [withEpochBlank, upd_ne _ _ _ _ hm]
        unfold okEpoch parsedEpochE
        rw [hv]
      have hdcpred : ∀ m, dcPred (withEpochBlank env n) m = dcPred env m := by
        intro m
        unfold dcPred
        rw [hprodeq m]
        rfl
      have hprodlist : producedEpochs (withEpochBlank env n) = producedEpochs env := by
        unfold producedEpochs
        have hfn : epochProduced (withEpochBlank env n) = epochProduced env :=
          funext hprodeq
        rw [hfn]
        rfl
      have hloweq : r.lowest = r'.lowest := by rw [hlow, hlow', hprodlist]
      have hdceq : r.dcFound = r'.dcFound := by
        rw [hdc, hdc']
        exact List.filter_congr (fun m _ => (hdcpred m).symm)
      have hexpeq : ∀ m, r.expectedAfter m = r'.expectedAfter m := by
        intro m
        rw [hexp m, hexp' m]
        by_cases hm : m ∈ env.nodes
        · rw [if_pos hm, if_pos (show m ∈ (withEpochBlank env n).nodes from hm),
              hprodeq m]
        · rw [if_neg hm, if_neg (show m ∉ (withEpochBlank env n).nodes from hm)]
          rfl
      refine ⟨?_, hloweq, hdceq, hexpeq⟩
      rw [hpass, hpass', hdceq, hmid, hmid', hloweq]
      have hallcong : r'.dcFound.all (fun m => dcCheck r'.lowest (r.nodeEpoch m))
          = r'.dcFound.all (fun m => dcCheck r'.lowest (r'.nodeEpoch m)) := by
        apply list_all_congr
        intro m hm
        rw [hdc'] at hm
        obtain ⟨hmem, hpredm⟩ := List.mem_filter.mp hm
        have hmem2 : m ∈ env.nodes := hmem
        have hpredm2 : dcPred env m = true := by
          rw [← hdcpred m]
          exact hpredm
        have hmn : m ≠ n := by
          intro hcontra
          subst hcontra
          unfold dcPred at hpredm2
          rw [hprod] at hpredm2
          simp at hpredm2
        rw [hne m, hne' m, if_pos hmem2,
            if_pos (show m ∈ (withEpochBlank env n).nodes from hmem2), hokeq m hmn]
      rw [hallcong]
  · intro env r h hf
    obtain ⟨_, _, _, _, hmid, _, hpass⟩ := audit_fields env r h
    rw [hpass]
    by_cases hl : r.dcFound.length > 1
    · rw [if_pos hl]
    · rw [if_neg hl, hmid, hf, Bool.false_and]

/-- Witness for claim C10 at concrete inputs: node `n2`'s epoch `00`
parses to 0, `n2` is demoted to `down`, and the audit result equals the
result with `n2`'s epoch blanked out; a partition in which no node
produces an epoch has a falsy lowest epoch and fails. -/
theorem claim_C10_witness :
    resC10.expectedAfter "n2" = some "down" ∧
    resC10.passed = resC10blank.passed ∧
    resC10.lowest = resC10blank.lowest ∧
    resC10b.passed = false := by
  have hok : auditPartition envC10 = .ok resC10 := rfl
  have hokb : auditPartition (withEpochBlank envC10 "n2") = .ok resC10blank := rfl
  have hokc : auditPartition envC10b = .ok resC10b := rfl
  have h1 := claim_C10.1 envC10 resC10 "n2" hok (by decide) (by decide)
  have h2 := h1.2 resC10blank hokb
  have h3 := claim_C10.2 envC10b resC10b hokc (by decide)
  exact ⟨h1.1, h2.1, h2.2.1, h3⟩

end CTSAudits
